import Mathlib

/-!
Verification development for the data-ingestion pipeline of the
learning-galaxy application (src/learning-galaxy-v5.jsx).

The pipeline consists of four parts, each shallowly embedded below from the
source:
* the hand-rolled CSV parser `parseCSV` (with its inner helpers `parseRow`
  and `cleanValue`, source lines 32-143);
* the localStorage-backed cache adapter `getCachedData` / `setCachedData`
  with its `btoa`-derived key (lines 146-180), modelled with an explicit
  store value threaded through;
* the retry fetcher `fetchWithRetry` (lines 275-298), modelled as a function
  from an oracle of per-attempt outcomes to a trace of attempt/delay events
  plus a final outcome;
* the `useSheetData` hook (lines 300-352), modelled as an explicit state
  machine: `effectRun` is one execution of the effect body, returning the
  synchronously updated state together with the pending fetch continuation
  it registered, and `resolve` applies such a continuation once its fetch
  settles.  The source registers no effect cleanup and performs no
  generation check, so a continuation updates whatever state is current
  when it resolves; `resolve` reflects that faithfully.

JavaScript strings are modelled as Lean `String` / `List Char`; machine
integers do not occur (timestamps are unbounded in JS numbers within the
ranges used here, modelled as `Int`).
-/

/-- Characters removed by JavaScript `String.prototype.trim`
(WhiteSpace ∪ LineTerminator). -/
def isJsWS (c : Char) : Bool :=
  c == ' ' || c == '\t' || c == '\n' || c == '\r' ||
  c.toNat == 0x0b || c.toNat == 0x0c || c.toNat == 0xa0 || c.toNat == 0x1680 ||
  (decide (0x2000 <= c.toNat) && decide (c.toNat <= 0x200a)) ||
  c.toNat == 0x2028 || c.toNat == 0x2029 || c.toNat == 0x202f ||
  c.toNat == 0x205f || c.toNat == 0x3000 || c.toNat == 0xfeff

/-- JavaScript `value.trim()` on a character list. -/
def jsTrim (cs : List Char) : List Char :=
  ((cs.dropWhile isJsWS).reverse.dropWhile isJsWS).reverse

/-- `cleanValue` (source lines 73-83): trim, then remove one pair of
surrounding double quotes if the trimmed value both starts and ends with
one (JS `slice(1, -1)`). -/
def cleanValue (cs : List Char) : List Char :=
  let v := jsTrim cs
  if v.head? = some '"' ∧ v.getLast? = some '"' then (v.drop 1).dropLast else v

/-- The character-scanning loop of `parseRow` (source lines 36-70).
`cur` is `current`, `inQ` is `inQuotes`, `acc` is `values`.
A doubled quote inside quotes appends one literal quote and consumes both
characters; a lone quote toggles the quote state without being appended;
an unquoted comma pushes `cleanValue cur`. -/
def parseRowAux : List Char → List Char → Bool → List String → List String
  | [], cur, _, acc => acc ++ [String.mk (cleanValue cur)]
  | c :: rest, cur, inQ, acc =>
    if c = '"' then
      match inQ, rest with
      | true, '"' :: rest2 => parseRowAux rest2 (cur ++ ['"']) true acc
      | iq, r => parseRowAux r cur (!iq) acc
    else if c = ',' ∧ inQ = false then
      parseRowAux rest [] inQ (acc ++ [String.mk (cleanValue cur)])
    else parseRowAux rest (cur ++ [c]) inQ acc

/-- `parseRow` (source lines 36-70). -/
def parseRow (row : List Char) : List String :=
  parseRowAux row [] false []

/-- The row-splitting scan of `parseCSV` (source lines 87-119).
A doubled quote inside quotes is copied through verbatim; a lone quote is
copied and toggles the state; an unquoted `\n`/`\r` ends the row (pushed
only when its trim is nonempty) with `\r\n` consumed as one break. -/
def splitRowsAux : List Char → List Char → Bool → List (List Char) → List (List Char)
  | [], cur, _, acc => if jsTrim cur = [] then acc else acc ++ [cur]
  | c :: rest, cur, inQ, acc =>
    if c = '"' then
      match inQ, rest with
      | true, '"' :: rest2 => splitRowsAux rest2 (cur ++ ['"', '"']) true acc
      | iq, r => splitRowsAux r (cur ++ [c]) (!iq) acc
    else if (c = '\n' ∨ c = '\r') ∧ inQ = false then
      let acc2 := if jsTrim cur = [] then acc else acc ++ [cur]
      match c, rest with
      | '\r', '\n' :: rest2 => splitRowsAux rest2 [] inQ acc2
      | _, r => splitRowsAux r [] inQ acc2
    else splitRowsAux rest (cur ++ [c]) inQ acc

/-- `splitRows`: the row list produced by the top-level scan of `parseCSV`. -/
def splitRows (cs : List Char) : List (List Char) :=
  splitRowsAux cs [] false []

/-- A parsed record: the JS object built per data row, as an ordered
key/value association list (JS object keys keep insertion order). -/
abbrev CsvRecord := List (String × String)

/-- JS property read `obj[k]` as an `Option`. -/
def recordGet (obj : CsvRecord) (k : String) : Option String :=
  (obj.find? (fun p => p.1 = k)).map (fun p => p.2)

/-- JS assignment `obj[k] = v`: overwrite in place if the key exists,
otherwise append. -/
def objInsert : CsvRecord → String → String → CsvRecord
  | [], k, v => [(k, v)]
  | (k2, v2) :: rest, k, v =>
    if k2 = k then (k, v) :: rest else (k2, v2) :: objInsert rest k v

/-- The `headers.forEach((h, i) => obj[h] = values[i] || '')` loop
(source lines 130-132); `values[i] || ''` is the empty string both when
the index is out of range and when the stored value is empty. -/
def buildObjAux (vals : List String) : List String → Nat → CsvRecord → CsvRecord
  | [], _, obj => obj
  | h :: hs, i, obj => buildObjAux vals hs (i + 1) (objInsert obj h (vals.getD i ""))

/-- Record construction for one data row. -/
def buildObj (headers vals : List String) : CsvRecord :=
  buildObjAux vals headers 0 []

/-- JS `h.toLowerCase()` restricted to per-character lowering. -/
def jsToLower (s : String) : String :=
  String.mk (s.data.map Char.toLower)

/-- The `Object.values(obj).some(v => v.trim())` filter predicate
(source lines 134-137): the record is kept iff some value is nonblank. -/
def recordNonblank (obj : CsvRecord) : Bool :=
  obj.any (fun p => decide (jsTrim p.2.data ≠ []))

/-- `parseCSV` (source lines 32-143): guard on empty input, split rows,
require at least two retained rows, lower-case the header cells, build one
record per remaining row, and drop records whose every value is blank. -/
def parseCSV (csv : String) : List CsvRecord :=
  if csv = "" then []
  else
    match splitRows csv.data with
    | r0 :: r1 :: rest =>
      let headers := (parseRow r0).map jsToLower
      ((r1 :: rest).map (fun row => buildObj headers (parseRow row))).filter recordNonblank
    | _ => []

example : parseCSV "a,b\n1,2" = [[("a", "1"), ("b", "2")]] := by decide
example : parseCSV "h\n\"He said \"\"hi\"\",\nok\"" = [[("h", "He said \"hi\",\nok")]] := by
  decide
example : parseCSV "h\n,x" = [] := by decide
example : parseCSV "A,B\n1" = [[("a", "1"), ("b", "")]] := by decide
example : parseCSV "h" = [] := by decide
example : parseCSV "" = [] := by decide

/-! ### Cache store adapter (source lines 146-180) -/

/-- One cache entry as serialized to localStorage:
JS `{ data, timestamp }` (source line 175).  JSON serialization and
deserialization round-trip through this shape; an unparsable stored string
behaves like an absent entry via the surrounding try/catch and is outside
this model. -/
structure CacheEntry where
  data : String
  timestamp : Int
deriving DecidableEq, Repr

/-- The localStorage key space relevant to the cache, as an ordered
key/value list threaded explicitly through reads and writes. -/
abbrev CacheStore := List (String × CacheEntry)

/-- `localStorage.getItem`. -/
def storeGet (st : CacheStore) (k : String) : Option CacheEntry :=
  (st.find? (fun p => p.1 = k)).map (fun p => p.2)

/-- `localStorage.setItem`: replace the existing entry for the key or
append a new one. -/
def storeSet : CacheStore → String → CacheEntry → CacheStore
  | [], k, v => [(k, v)]
  | (k2, v2) :: rest, k, v =>
    if k2 = k then (k, v) :: rest else (k2, v2) :: storeSet rest k v

/-- `localStorage.removeItem`. -/
def storeRemove (st : CacheStore) (k : String) : CacheStore :=
  st.filter (fun p => p.1 ≠ k)

/-- The base64 alphabet used by `btoa`. -/
def b64Alphabet : List Char :=
  "ABCDEFGHIJKLMNOPQRSTUVWXYZabcdefghijklmnopqrstuvwxyz0123456789+/".data

/-- Sextet index to base64 character. -/
def b64Char (n : Nat) : Char :=
  b64Alphabet.getD n 'A'

/-- Base64 encoding of a byte sequence, with `=` padding. -/
def b64Encode : List Nat → List Char
  | [] => []
  | [b1] => [b64Char (b1 / 4), b64Char (b1 % 4 * 16), '=', '=']
  | [b1, b2] => [b64Char (b1 / 4), b64Char (b1 % 4 * 16 + b2 / 16), b64Char (b2 % 16 * 4), '=']
  | b1 :: b2 :: b3 :: rest =>
    b64Char (b1 / 4) :: b64Char (b1 % 4 * 16 + b2 / 16) ::
    b64Char (b2 % 16 * 4 + b3 / 64) :: b64Char (b3 % 64) :: b64Encode rest

/-- Browser `btoa`: base64 of the code units, throwing (here: `none`) when
any character falls outside Latin-1. -/
def btoa (s : String) : Option String :=
  if s.data.all (fun c => decide (c.toNat ≤ 255)) then
    some (String.mk (b64Encode (s.data.map Char.toNat)))
  else none

/-- `getCacheKey` (source line 148): `sheet-cache-` plus the first 50
characters of `btoa(url)`; `none` when `btoa` throws. -/
def getCacheKey (url : String) : Option String :=
  (btoa url).map (fun b => "sheet-cache-" ++ String.mk (b.data.take 50))

/-- `CACHE_DURATION` (source line 146): one hour in milliseconds. -/
def CACHE_DURATION : Int := 60 * 60 * 1000

/-- `getCachedData` (source lines 150-170), with `Date.now()` and the
store passed explicitly.  Returns the payload (or `none`) together with
the store after the call: an entry whose age is at least
`CACHE_DURATION` is removed as a side effect; a `btoa` failure is caught
and behaves like a miss. -/
def getCachedData (now : Int) (st : CacheStore) (url : String) :
    Option String × CacheStore :=
  match getCacheKey url with
  | none => (none, st)
  | some key =>
    match storeGet st key with
    | none => (none, st)
    | some entry =>
      if now - entry.timestamp < CACHE_DURATION then (entry.data, st)
      else (none, storeRemove st key)

/-- `setCachedData` (source lines 172-180): best-effort write of
`{ data, timestamp: Date.now() }`; a `btoa` failure is caught and the
write is dropped. -/
def setCachedData (now : Int) (st : CacheStore) (url : String) (d : String) : CacheStore :=
  match getCacheKey url with
  | none => st
  | some key => storeSet st key ⟨d, now⟩

example : btoa "u" = some "dQ==" := by decide
example : getCacheKey "u" = some "sheet-cache-dQ==" := by decide

/-! ### Resilient fetcher (source lines 275-298) -/

/-- Observable events of one `fetchWithRetry` call. -/
inductive FetchEvent where
  | attempt (n : Nat)
  | delay (ms : Nat)
deriving DecidableEq, Repr

/-- The retry loop of `fetchWithRetry` (source lines 278-295).
`results k` is the outcome of the `fetch`+status-check of attempt `k`
(`Except.error` covers both transport faults and non-ok statuses, which
the source turns into thrown errors).  Produces the ordered event trace
and the final outcome; the final `throw lastError` with no completed
attempt (only possible when `maxRetries = 0`) yields `Except.error none`.
The delay of `2 ^ attempt * 1000` ms is emitted only when the failed
attempt is not the last one. -/
def fetchLoop (results : Nat → Except String String) (maxRetries : Nat)
    (attempt : Nat) (lastError : Option String) :
    List FetchEvent × Except (Option String) String :=
  if attempt < maxRetries then
    match results attempt with
    | .ok t => ([.attempt attempt], .ok t)
    | .error e =>
      if attempt < maxRetries - 1 then
        let next := fetchLoop results maxRetries (attempt + 1) (some e)
        (.attempt attempt :: .delay (2 ^ attempt * 1000) :: next.1, next.2)
      else
        let next := fetchLoop results maxRetries (attempt + 1) (some e)
        (.attempt attempt :: next.1, next.2)
  else ([], .error lastError)
  termination_by maxRetries - attempt
  decreasing_by all_goals omega

/-- `fetchWithRetry` (source line 275), default `maxRetries = 3`. -/
def fetchWithRetry (results : Nat → Except String String)
    (maxRetries : Nat := 3) : List FetchEvent × Except (Option String) String :=
  fetchLoop results maxRetries 0 none

/-! ### Data source controller: the `useSheetData` hook (source lines 300-352) -/

/-- The hook state: `data`, `loading`, `error`, `fromCache`
(source lines 301-305); `retryTrigger` only forces effect re-runs and
carries no data. -/
structure LoadState where
  data : List CsvRecord
  loading : Bool
  error : Option String
  fromCache : Bool
deriving DecidableEq, Repr

/-- The `useState` initial values (source lines 301-305). -/
def initialLoadState : LoadState :=
  { data := [], loading := true, error := none, fromCache := false }

/-- The category filter applied after each parse (source lines 314, 324,
342): with a truthy `gameType`, keep rows whose `game_type` property
equals it (an absent property compares unequal). -/
def filterByGameType (gameType : String) (rs : List CsvRecord) : List CsvRecord :=
  if gameType = "" then rs
  else rs.filter (fun r => recordGet r "game_type" = some gameType)

/-- A fetch continuation registered by one effect run.  The source's
`.then`/`.catch` closures capture `url` and `gameType`; nothing records a
generation, and the effect installs no cleanup, so the closure fires
against whatever state is current when the promise settles. -/
inductive PendingFetch where
  | background (url gameType : String)
  | foreground (url gameType : String)
  | idle
deriving DecidableEq, Repr

/-- One run of the effect body (source lines 307-347) for the current
`url`/`gameType`, given the current time, cache store and hook state.
Returns the synchronously updated state, the store after the cache probe,
and the fetch continuation the run left in flight.  The source's cache
test `if (cached)` at line 312 is a JS truthiness check: a `null` probe
result and an empty-string payload both fall through to the no-cache
foreground path (lines 334-346). -/
def effectRun (now : Int) (st : CacheStore) (url gameType : String)
    (s : LoadState) : LoadState × CacheStore × PendingFetch :=
  if url = "" then ({ s with loading := false }, st, .idle)
  else
    match getCachedData now st url with
    | (some cached, st2) =>
      if cached = "" then
        ({ s with loading := true, error := none, fromCache := false },
         st2, .foreground url gameType)
      else
        let filtered := filterByGameType gameType (parseCSV cached)
        ({ s with data := filtered, fromCache := true, loading := false },
         st2, .background url gameType)
    | (none, st2) =>
      ({ s with loading := true, error := none, fromCache := false },
       st2, .foreground url gameType)

/-- Settling one in-flight fetch (the `.then`/`.catch` handlers at source
lines 320-330 and 338-346) against the current state and store.
Background success re-parses, re-filters, writes through to the cache and
clears `fromCache`; background failure is swallowed.  Foreground success
does the same but also clears `loading`; foreground failure stores the
message and clears `loading`. -/
def resolveFetch (p : PendingFetch) (result : Except String String)
    (now : Int) (s : LoadState) (st : CacheStore) : LoadState × CacheStore :=
  match p with
  | .idle => (s, st)
  | .background url gameType =>
    match result with
    | .ok csv =>
      let st2 := setCachedData now st url csv
      let filtered := filterByGameType gameType (parseCSV csv)
      ({ s with data := filtered, fromCache := false }, st2)
    | .error _ => (s, st)
  | .foreground url gameType =>
    match result with
    | .ok csv =>
      let st2 := setCachedData now st url csv
      let filtered := filterByGameType gameType (parseCSV csv)
      ({ s with data := filtered, loading := false }, st2)
    | .error e => ({ s with error := some e, loading := false }, st)

example :
    (effectRun 0 [] "u" "" initialLoadState).2.2 = .foreground "u" "" := by decide
example :
    (effectRun 0 [("sheet-cache-dQ==", ⟨"h\nv", 0⟩)] "u" "" initialLoadState).1.data
      = [[("h", "v")]] := by decide

/-! ### Store lemmas -/

theorem storeGet_storeSet_self (st : CacheStore) (k : String) (v : CacheEntry) :
    storeGet (storeSet st k v) k = some v := by
  induction st with
  | nil => simp [storeGet, storeSet, List.find?]
  | cons p rest ih =>
    obtain ⟨k2, v2⟩ := p
    by_cases hk : k2 = k
    · simp [storeGet, storeSet, hk, List.find?]
    · simpa [storeGet, storeSet, hk, List.find?] using ih

theorem storeGet_storeRemove_self (st : CacheStore) (k : String) :
    storeGet (storeRemove st k) k = none := by
  induction st with
  | nil => simp [storeGet, storeRemove]
  | cons p rest ih =>
    obtain ⟨k2, v2⟩ := p
    by_cases hk : k2 = k
    · simp [storeRemove, hk] at ih ⊢
      exact ih
    · simp only [storeRemove] at ih ⊢
      simp [storeGet, List.find?, hk, ih]

/-- C4: a cache entry written at time `T` is returned unchanged by a read
at any `t` with `t - T < 3600000` ms (store untouched), while a read at
any `t` with `t - T ≥ 3600000` ms returns absent and deletes the entry
from the store before returning; in particular the entry is readable at
`T + 3599999` and absent at `T + 3600000` (see the witness). -/
theorem claim_C4_cache_ttl (url d k : String) (T t : Int) (st : CacheStore)
    (hk : getCacheKey url = some k) :
    (t - T < 3600000 →
      getCachedData t (setCachedData T st url d) url
        = (some d, setCachedData T st url d)) ∧
    (3600000 ≤ t - T →
      getCachedData t (setCachedData T st url d) url
          = (none, storeRemove (setCachedData T st url d) k) ∧
        storeGet (storeRemove (setCachedData T st url d) k) k = none) := by
  have hset : setCachedData T st url d = storeSet st k ⟨d, T⟩ := by
    simp [setCachedData, hk]
  constructor
  · intro h
    simp only [getCachedData, hk, hset, storeGet_storeSet_self]
    rw [if_pos]
    show t - T < CACHE_DURATION
    simp only [CACHE_DURATION]
    omega
  · intro h
    refine ⟨?_, storeGet_storeRemove_self _ _⟩
    simp only [getCachedData, hk, hset, storeGet_storeSet_self]
    rw [if_neg]
    show ¬ t - T < CACHE_DURATION
    simp only [CACHE_DURATION]
    omega

/-- Witness for C4 at url `"u"` (key `sheet-cache-dQ==`), written at
`T = 0`: readable at `t = 3599999`, absent and deleted at `t = 3600000`. -/
theorem claim_C4_cache_ttl_witness :
    (getCachedData 3599999 (setCachedData 0 [] "u" "x") "u"
      = (some "x", setCachedData 0 [] "u" "x")) ∧
    (getCachedData 3600000 (setCachedData 0 [] "u" "x") "u"
        = (none, storeRemove (setCachedData 0 [] "u" "x") "sheet-cache-dQ==") ∧
      storeGet (storeRemove (setCachedData 0 [] "u" "x") "sheet-cache-dQ==")
        "sheet-cache-dQ==" = none) :=
  ⟨(claim_C4_cache_ttl "u" "x" "sheet-cache-dQ==" 0 3599999 [] (by decide)).1
      (by decide),
   (claim_C4_cache_ttl "u" "x" "sheet-cache-dQ==" 0 3600000 [] (by decide)).2
      (by decide)⟩

/-- C10: when the identifier contains a character outside Latin-1, `btoa`
throws, the surrounding try/catch makes `getCachedData` return absent with
the store untouched, and `setCachedData` is a silent no-op: caching is
disabled for such identifiers and neither operation throws (both are total
functions here). -/
theorem claim_C10_nonlatin1_disables_cache (url d : String) (now : Int)
    (st : CacheStore)
    (h : url.data.all (fun c => decide (c.toNat ≤ 255)) = false) :
    getCachedData now st url = (none, st) ∧ setCachedData now st url d = st := by
  have hb : btoa url = none := by simp [btoa, h]
  have hkk : getCacheKey url = none := by simp [getCacheKey, hb]
  exact ⟨by simp [getCachedData, hkk], by simp [setCachedData, hkk]⟩

/-- Witness for C10 at the identifier `"☃"` (U+2603, outside Latin-1). -/
theorem claim_C10_witness :
    getCachedData 5 [("sheet-cache-dQ==", ⟨"h\nv", 0⟩)] "☃"
        = (none, [("sheet-cache-dQ==", ⟨"h\nv", 0⟩)]) ∧
      setCachedData 5 [("sheet-cache-dQ==", ⟨"h\nv", 0⟩)] "☃" "d"
        = [("sheet-cache-dQ==", ⟨"h\nv", 0⟩)] :=
  claim_C10_nonlatin1_disables_cache "☃" "d" 5
    [("sheet-cache-dQ==", ⟨"h\nv", 0⟩)] (by decide)

/-- C3: for `fetchWithRetry` with `maxRetries = 3` and every attempt
failing, exactly attempts 0, 1, 2 occur, a 1000 ms delay separates
attempts 0 and 1 and a 2000 ms delay separates attempts 1 and 2, no delay
precedes attempt 0 or follows attempt 2, and the call fails carrying the
last attempt's failure `f 2`. -/
theorem claim_C3_retry_backoff (f : Nat → String) :
    fetchWithRetry (fun k => .error (f k)) 3
      = ([.attempt 0, .delay 1000, .attempt 1, .delay 2000, .attempt 2],
         .error (some (f 2))) := by
  simp [fetchWithRetry, fetchLoop]

/-- Witness for C3 with the constant failure `"boom"`. -/
theorem claim_C3_retry_backoff_witness :
    fetchWithRetry (fun _ => .error "boom") 3
      = ([.attempt 0, .delay 1000, .attempt 1, .delay 2000, .attempt 2],
         .error (some "boom")) :=
  claim_C3_retry_backoff (fun _ => "boom")

/-- C8: with a non-empty `categoryFilter`, the emitted records are exactly
the parsed records whose `game_type` field equals the filter, in their
original relative order (the output is a sublist of the input and
membership is equivalent to matching); in particular, for records with
`game_type` values x, y, x, filtering by x yields exactly the two matching
records in order. -/
theorem claim_C8_filter_exact (gameType : String) (rs : List CsvRecord)
    (h : gameType ≠ "") :
    (filterByGameType gameType rs).Sublist rs ∧
    (∀ r, r ∈ filterByGameType gameType rs ↔
        r ∈ rs ∧ recordGet r "game_type" = some gameType) ∧
    filterByGameType "x"
        [[("game_type", "x"), ("q", "1")],
         [("game_type", "y"), ("q", "2")],
         [("game_type", "x"), ("q", "3")]]
      = [[("game_type", "x"), ("q", "1")], [("game_type", "x"), ("q", "3")]] := by
  refine ⟨?_, ?_, by decide⟩
  · simp only [filterByGameType, if_neg h]
    exact List.filter_sublist rs
  · intro r
    simp [filterByGameType, if_neg h, List.mem_filter]

/-- Witness for C8 on the three-record example itself. -/
theorem claim_C8_filter_exact_witness :
    (filterByGameType "x"
        [[("game_type", "x"), ("q", "1")],
         [("game_type", "y"), ("q", "2")],
         [("game_type", "x"), ("q", "3")]]).Sublist
      [[("game_type", "x"), ("q", "1")],
       [("game_type", "y"), ("q", "2")],
       [("game_type", "x"), ("q", "3")]] :=
  (claim_C8_filter_exact "x"
    [[("game_type", "x"), ("q", "1")],
     [("game_type", "y"), ("q", "2")],
     [("game_type", "x"), ("q", "3")]] (by decide)).1

/-- C7: `parseCSV` is a total function (the source wraps its body in
try/catch and guards non-string input, so it never throws), returns the
empty record set on empty input, and returns the empty record set whenever
fewer than two rows are retained by the row splitter.  Non-string input
and internal faults have no counterpart in this typed, total embedding;
the two statable guard behaviors are proved. -/
theorem claim_C7_degrades_to_empty :
    parseCSV "" = [] ∧
    ∀ csv : String, (splitRows csv.data).length < 2 → parseCSV csv = [] := by
  refine ⟨by decide, ?_⟩
  intro csv h
  unfold parseCSV
  split
  · rfl
  · split
    · rename_i r0 r1 rest heq
      rw [heq] at h
      simp at h
      omega
    · rfl

/-- Witness for C7: a single header-only line has one retained row, hence
an empty parse. -/
theorem claim_C7_degrades_to_empty_witness : parseCSV "hdr" = [] :=
  claim_C7_degrades_to_empty.2 "hdr" (by decide)

/-- C1: the claim requires that after switching from identifier A to B
while A's load is in flight, no state update from the stale A request is
ever applied.  The source effect (lines 307-347) installs no cleanup and
stamps no generation, so A's `.then` closure still runs `setData` when A
resolves after B: starting at the initial state with an empty cache,
running the effect for A, then for B, letting B's fetch succeed with B's
document and then A's stale fetch succeed with A's document leaves the
hook holding A's records, not B's.  This theorem evaluates the model at
that failing schedule. -/
theorem claim_C1_stale_update_applied :
    (effectRun 0 [] "A" "" initialLoadState).2.2 = PendingFetch.foreground "A" "" ∧
    (effectRun 0 [] "B" "" (effectRun 0 [] "A" "" initialLoadState).1).2.2
      = PendingFetch.foreground "B" "" ∧
    (resolveFetch (.foreground "B" "") (.ok "h\nB") 0
        (effectRun 0 [] "B" "" (effectRun 0 [] "A" "" initialLoadState).1).1 []).1.data
      = [[("h", "B")]] ∧
    (resolveFetch (.foreground "A" "") (.ok "h\nA") 0
        (resolveFetch (.foreground "B" "") (.ok "h\nB") 0
          (effectRun 0 [] "B" "" (effectRun 0 [] "A" "" initialLoadState).1).1 []).1
        (resolveFetch (.foreground "B" "") (.ok "h\nB") 0
          (effectRun 0 [] "B" "" (effectRun 0 [] "A" "" initialLoadState).1).1 []).2).1.data
      = [[("h", "A")]] ∧
    [[("h", "A")]] ≠ ([[("h", "B")]] : List CsvRecord) := by
  decide

/-- C5: on a hit against a populated (non-empty payload), unexpired cache
entry, one effect run synchronously (before any fetch settles) produces
the Ready state with `fromCache = true`, `loading = false` and the
parsed, filtered cached records, leaving the store untouched and a
background fetch in flight; if that background fetch succeeds it writes
the fetched text through to the cache and yields `fromCache = false`
with the re-parsed, re-filtered records; if it fails, state and store are
exactly unchanged.  (`hpop` is the claim's "populated": an empty stored
payload is falsy for the source's `if (cached)` and takes the foreground
path instead.) -/
theorem claim_C5_stale_while_revalidate (now now2 : Int) (st : CacheStore)
    (url gameType cached csv e : String) (s : LoadState)
    (hurl : url ≠ "") (hpop : cached ≠ "")
    (hhit : getCachedData now st url = (some cached, st)) :
    effectRun now st url gameType s
      = ({ s with
            data := filterByGameType gameType (parseCSV cached)
            fromCache := true
            loading := false },
         st, .background url gameType) ∧
    resolveFetch (.background url gameType) (.ok csv) now2
        { s with
          data := filterByGameType gameType (parseCSV cached)
          fromCache := true
          loading := false } st
      = ({ s with
            data := filterByGameType gameType (parseCSV csv)
            fromCache := false
            loading := false },
         setCachedData now2 st url csv) ∧
    resolveFetch (.background url gameType) (.error e) now2
        { s with
          data := filterByGameType gameType (parseCSV cached)
          fromCache := true
          loading := false } st
      = ({ s with
            data := filterByGameType gameType (parseCSV cached)
            fromCache := true
            loading := false }, st) := by
  refine ⟨?_, rfl, rfl⟩
  unfold effectRun
  rw [if_neg hurl, hhit]
  simp only [if_neg hpop]

/-- Witness for C5 at url `"u"` holding cached text `"h\nv"` captured at
time 0, read at time 10, with a background success `"h\nw"` and a
background failure `"boom"`. -/
theorem claim_C5_stale_while_revalidate_witness :
    effectRun 10 [("sheet-cache-dQ==", ⟨"h\nv", 0⟩)] "u" "" initialLoadState
      = ({ initialLoadState with
            data := filterByGameType "" (parseCSV "h\nv")
            fromCache := true
            loading := false },
         [("sheet-cache-dQ==", ⟨"h\nv", 0⟩)], .background "u" "") ∧
    resolveFetch (.background "u" "") (.ok "h\nw") 20
        { initialLoadState with
          data := filterByGameType "" (parseCSV "h\nv")
          fromCache := true
          loading := false }
        [("sheet-cache-dQ==", ⟨"h\nv", 0⟩)]
      = ({ initialLoadState with
            data := filterByGameType "" (parseCSV "h\nw")
            fromCache := false
            loading := false },
         setCachedData 20 [("sheet-cache-dQ==", ⟨"h\nv", 0⟩)] "u" "h\nw") ∧
    resolveFetch (.background "u" "") (.error "boom") 20
        { initialLoadState with
          data := filterByGameType "" (parseCSV "h\nv")
          fromCache := true
          loading := false }
        [("sheet-cache-dQ==", ⟨"h\nv", 0⟩)]
      = ({ initialLoadState with
            data := filterByGameType "" (parseCSV "h\nv")
            fromCache := true
            loading := false },
         [("sheet-cache-dQ==", ⟨"h\nv", 0⟩)]) :=
  claim_C5_stale_while_revalidate 10 20 [("sheet-cache-dQ==", ⟨"h\nv", 0⟩)]
    "u" "" "h\nv" "h\nw" "boom" initialLoadState (by decide) (by decide)
    (by decide)

/-! ### Parser lemmas -/

theorem mem_of_mem_jsTrim {a : Char} {cs : List Char} (h : a ∈ jsTrim cs) :
    a ∈ cs := by
  unfold jsTrim at h
  rw [List.mem_reverse] at h
  have h2 : a ∈ (cs.dropWhile isJsWS).reverse :=
    (List.dropWhile_sublist _).mem h
  rw [List.mem_reverse] at h2
  exact (List.dropWhile_sublist _).mem h2

theorem jsTrim_cons_ne_nil {c : Char} {cs : List Char} (h : isJsWS c = false) :
    jsTrim (c :: cs) ≠ [] := by
  unfold jsTrim
  rw [List.dropWhile_cons, if_neg (by simp [h])]
  intro hcon
  rw [List.reverse_eq_nil_iff, List.dropWhile_eq_nil_iff] at hcon
  have := hcon c (by simp)
  simp [h] at this

theorem cleanValue_of_no_quote {cs : List Char} (h : '"' ∉ cs) :
    cleanValue cs = jsTrim cs := by
  unfold cleanValue
  rw [if_neg]
  rintro ⟨h1, -⟩
  cases hjt : jsTrim cs with
  | nil => rw [hjt] at h1; simp at h1
  | cons a l =>
    rw [hjt] at h1
    simp at h1
    have ha : '"' ∈ jsTrim cs := by
      rw [hjt, h1]
      exact List.mem_cons_self _ _
    exact h (mem_of_mem_jsTrim ha)

theorem parseRowAux_other {c : Char} {rest cur : List Char} {inQ : Bool}
    {acc : List String} (hq : c ≠ '"') (hc : ¬(c = ',' ∧ inQ = false)) :
    parseRowAux (c :: rest) cur inQ acc = parseRowAux rest (cur ++ [c]) inQ acc := by
  cases inQ
  · have hc2 : c ≠ ',' := fun h => hc ⟨h, rfl⟩
    simp [parseRowAux, hq, hc2]
  · rcases rest with _ | ⟨c2, rest2⟩
    · rw [parseRowAux.eq_3]
      · simp [hq]
      · simp
    · by_cases h2 : c2 = '"'
      · subst h2
        rw [parseRowAux.eq_2]
        simp [hq]
      · rw [parseRowAux.eq_3]
        · simp [hq]
        · intro r2 _ heq
          simp at heq
          exact h2 heq.1

theorem parseRowAux_comma {rest cur : List Char} {acc : List String} :
    parseRowAux (',' :: rest) cur false acc
      = parseRowAux rest [] false (acc ++ [String.mk (cleanValue cur)]) := by
  simp [parseRowAux]

theorem parseRowAux_quote_open {rest cur : List Char} {acc : List String} :
    parseRowAux ('"' :: rest) cur false acc = parseRowAux rest cur true acc := by
  simp [parseRowAux]

theorem parseRowAux_escaped {rest cur : List Char} {acc : List String} :
    parseRowAux ('"' :: '"' :: rest) cur true acc
      = parseRowAux rest (cur ++ ['"']) true acc := by
  simp [parseRowAux]

theorem parseRowAux_quote_end {cur : List Char} {acc : List String} :
    parseRowAux ['"'] cur true acc = acc ++ [String.mk (cleanValue cur)] := rfl

theorem splitRowsAux_other {c : Char} {rest cur : List Char} {inQ : Bool}
    {acc : List (List Char)} (hq : c ≠ '"')
    (hnl : ¬((c = '\n' ∨ c = '\r') ∧ inQ = false)) :
    splitRowsAux (c :: rest) cur inQ acc = splitRowsAux rest (cur ++ [c]) inQ acc := by
  cases inQ
  · have h2 : ¬(c = '\n' ∨ c = '\r') := fun h => hnl ⟨h, rfl⟩
    simp [splitRowsAux, hq, h2]
  · rcases rest with _ | ⟨c2, rest2⟩
    · rw [splitRowsAux.eq_3]
      · simp [hq]
      · simp
    · by_cases h2 : c2 = '"'
      · subst h2
        rw [splitRowsAux.eq_2]
        simp [hq]
      · rw [splitRowsAux.eq_3]
        · simp [hq]
        · intro r2 _ heq
          simp at heq
          exact h2 heq.1

theorem splitRowsAux_newline {rest cur : List Char} {acc : List (List Char)} :
    splitRowsAux ('\n' :: rest) cur false acc
      = splitRowsAux rest [] false (if jsTrim cur = [] then acc else acc ++ [cur]) := by
  simp [splitRowsAux]

theorem splitRowsAux_quote_open {rest cur : List Char} {acc : List (List Char)} :
    splitRowsAux ('"' :: rest) cur false acc
      = splitRowsAux rest (cur ++ ['"']) true acc := by
  simp [splitRowsAux]

theorem splitRowsAux_escaped {rest cur : List Char} {acc : List (List Char)} :
    splitRowsAux ('"' :: '"' :: rest) cur true acc
      = splitRowsAux rest (cur ++ ['"', '"']) true acc := by
  simp [splitRowsAux]

theorem splitRowsAux_quote_end {cur : List Char} {acc : List (List Char)} :
    splitRowsAux ['"'] cur true acc
      = if jsTrim (cur ++ ['"']) = [] then acc else acc ++ [cur ++ ['"']] := by
  simp [splitRowsAux]

/-- The RFC 4180 quoting transform a producer applies inside a quoted
field: every double quote is doubled, all other characters are copied. -/
def doubleQ : List Char → List Char
  | [] => []
  | c :: rest => (if c = '"' then ['"', '"'] else [c]) ++ doubleQ rest

/-- A properly quoted CSV field for the raw value `v`. -/
def encodeQuotedField (v : List Char) : List Char :=
  '"' :: (doubleQ v ++ ['"'])

theorem parseRowAux_doubleQ (v : List Char) :
    ∀ (rest cur : List Char) (acc : List String),
    parseRowAux (doubleQ v ++ rest) cur true acc
      = parseRowAux rest (cur ++ v) true acc := by
  induction v with
  | nil => simp [doubleQ]
  | cons c cs ih =>
    intro rest cur acc
    by_cases hc : c = '"'
    · subst hc
      have hd : doubleQ ('"' :: cs) = '"' :: '"' :: doubleQ cs := rfl
      rw [hd, List.cons_append, List.cons_append, parseRowAux_escaped, ih]
      simp
    · simp only [doubleQ, if_neg hc, List.cons_append, List.nil_append]
      rw [parseRowAux_other hc (by simp), ih]
      simp

theorem splitRowsAux_doubleQ (v : List Char) :
    ∀ (rest cur : List Char) (acc : List (List Char)),
    splitRowsAux (doubleQ v ++ rest) cur true acc
      = splitRowsAux rest (cur ++ doubleQ v) true acc := by
  induction v with
  | nil => simp [doubleQ]
  | cons c cs ih =>
    intro rest cur acc
    by_cases hc : c = '"'
    · subst hc
      have hd : doubleQ ('"' :: cs) = '"' :: '"' :: doubleQ cs := rfl
      rw [hd, List.cons_append, List.cons_append, splitRowsAux_escaped, ih]
      simp [hd]
    · simp only [doubleQ, if_neg hc, List.cons_append, List.nil_append]
      rw [splitRowsAux_other hc (by simp), ih]
      simp

theorem parseRowAux_copy (cs : List Char)
    (h : ∀ c ∈ cs, c ≠ '"' ∧ c ≠ ',') :
    ∀ (rest cur : List Char) (acc : List String),
    parseRowAux (cs ++ rest) cur false acc = parseRowAux rest (cur ++ cs) false acc := by
  induction cs with
  | nil => simp
  | cons c cs2 ih =>
    intro rest cur acc
    have hc := h c (by simp)
    rw [List.cons_append, parseRowAux_other hc.1 (fun hx => hc.2 hx.1),
      ih (fun a ha => h a (by simp [ha]))]
    simp

theorem splitRowsAux_copy (cs : List Char)
    (h : ∀ c ∈ cs, c ≠ '"' ∧ c ≠ '\n' ∧ c ≠ '\r') :
    ∀ (rest cur : List Char) (acc : List (List Char)),
    splitRowsAux (cs ++ rest) cur false acc = splitRowsAux rest (cur ++ cs) false acc := by
  induction cs with
  | nil => simp
  | cons c cs2 ih =>
    intro rest cur acc
    have hc := h c (by simp)
    rw [List.cons_append,
      splitRowsAux_other hc.1 (fun hx => hx.1.elim (fun h1 => hc.2.1 h1) (fun h1 => hc.2.2 h1)),
      ih (fun a ha => h a (by simp [ha]))]
    simp

/-- Joining a list of chunks with a separator, as a CSV producer does for
cells within a row (separator `,`) and rows within a document
(separator `\n`). -/
def joinWith (sep : List Char) : List (List Char) → List Char
  | [] => []
  | [x] => x
  | x :: y :: rest => x ++ sep ++ joinWith sep (y :: rest)

theorem parseRow_joinComma (cells : List (List Char))
    (h : ∀ cell ∈ cells, ∀ c ∈ cell, c ≠ '"' ∧ c ≠ ',') (hne : cells ≠ []) :
    ∀ acc : List String,
    parseRowAux (joinWith [','] cells) [] false acc
      = acc ++ cells.map (fun cell => String.mk (cleanValue cell)) := by
  induction cells with
  | nil => exact absurd rfl hne
  | cons c0 cs ih =>
    intro acc
    cases cs with
    | nil =>
      have h0 : joinWith [','] [c0] = c0 ++ [] := by simp [joinWith]
      rw [h0, parseRowAux_copy c0 (h c0 (by simp)) [] [] acc]
      simp [parseRowAux]
    | cons c1 cs2 =>
      have h0 : joinWith [','] (c0 :: c1 :: cs2)
          = c0 ++ (',' :: joinWith [','] (c1 :: cs2)) := by
        simp [joinWith]
      rw [h0, parseRowAux_copy c0 (h c0 (by simp)) _ [] acc, List.nil_append,
        parseRowAux_comma, ih (fun cell hc => h cell (by simp [hc])) (by simp)]
      simp

theorem splitRowsAux_joinLines (lines : List (List Char))
    (h : ∀ l ∈ lines, ∀ c ∈ l, c ≠ '"' ∧ c ≠ '\n' ∧ c ≠ '\r') :
    ∀ acc : List (List Char),
    splitRowsAux (joinWith ['\n'] lines) [] false acc
      = acc ++ lines.filter (fun l => decide (jsTrim l ≠ [])) := by
  induction lines with
  | nil => simp [joinWith, splitRowsAux, jsTrim]
  | cons l0 ls ih =>
    intro acc
    cases ls with
    | nil =>
      have h0 : joinWith ['\n'] [l0] = l0 ++ [] := by simp [joinWith]
      rw [h0, splitRowsAux_copy l0 (h l0 (by simp)) [] [] acc, List.nil_append]
      by_cases hb : jsTrim l0 = []
      · simp [splitRowsAux, hb, List.filter]
      · simp [splitRowsAux, hb, List.filter]
    | cons l1 ls2 =>
      have h0 : joinWith ['\n'] (l0 :: l1 :: ls2)
          = l0 ++ ('\n' :: joinWith ['\n'] (l1 :: ls2)) := by
        simp [joinWith]
      rw [h0, splitRowsAux_copy l0 (h l0 (by simp)) _ [] acc, List.nil_append,
        splitRowsAux_newline, ih (fun l hl => h l (by simp [hl]))]
      by_cases hb : jsTrim l0 = []
      · simp [hb, List.filter]
      · simp [hb, List.filter]

/-- C2 counterexample: the claim quantifies over every field value
containing a comma, a newline and a doubled-quote escape, but a value
that itself begins and ends with a double quote is not returned intact:
for the value consisting of quote, a, comma, newline, b, quote, embedding
it as a properly quoted CSV field (first conjunct: the input below is
exactly the header plus `encodeQuotedField` of the value) parses back to
`a,<newline>b` with the surrounding quotes stripped by `cleanValue`,
which differs from the original value — even though the value contains a
comma, a newline and a quote. -/
theorem claim_C2_counterexample :
    ("h\n\"\"\"a,\nb\"\"\"" : String)
        = String.mk ('h' :: '\n' :: encodeQuotedField ("\"a,\nb\"" : String).data) ∧
    parseCSV "h\n\"\"\"a,\nb\"\"\"" = [[("h", "a,\nb")]] ∧
    (("a,\nb" : String) ≠ "\"a,\nb\"") ∧
    ',' ∈ ("\"a,\nb\"" : String).data ∧
    '\n' ∈ ("\"a,\nb\"" : String).data ∧
    '"' ∈ ("\"a,\nb\"" : String).data := by
  decide

/-- C2 (amended): for every field value containing a comma, a newline and
a quote which additionally survives `cleanValue` unchanged — it carries no
leading or trailing JS whitespace and does not both begin and end with a
double quote — embedding the value as a properly quoted CSV field (all
its quotes doubled, the whole wrapped in quotes) under a one-column
header parses back to exactly the original value, newline, comma and
quote characters preserved. -/
theorem claim_C2_roundtrip_amended (v : String)
    (hcomma : ',' ∈ v.data) (_hnl : '\n' ∈ v.data) (_hq : '"' ∈ v.data)
    (htrim : jsTrim v.data = v.data)
    (hnotq : ¬(v.data.head? = some '"' ∧ v.data.getLast? = some '"')) :
    parseCSV (String.mk ('h' :: '\n' :: encodeQuotedField v.data)) = [[("h", v)]] := by
  have hvne : v.data ≠ [] := List.ne_nil_of_mem hcomma
  have hclean : cleanValue v.data = v.data := by
    unfold cleanValue
    simp only [htrim]
    rw [if_neg hnotq]
  have hrowsplit : splitRows ('h' :: '\n' :: encodeQuotedField v.data)
      = [['h'], encodeQuotedField v.data] := by
    unfold splitRows encodeQuotedField
    rw [splitRowsAux_other (by decide) (by decide), splitRowsAux_newline]
    simp only [List.nil_append]
    rw [if_neg (show ¬ jsTrim ['h'] = [] from by decide)]
    rw [splitRowsAux_quote_open, List.nil_append,
      splitRowsAux_doubleQ, splitRowsAux_quote_end]
    have hsh : (['"'] ++ doubleQ v.data) ++ ['"'] = '"' :: (doubleQ v.data ++ ['"']) := by
      simp
    rw [hsh, if_neg (jsTrim_cons_ne_nil (by decide))]
    rfl
  have hdata : parseRow (encodeQuotedField v.data) = [String.mk (cleanValue v.data)] := by
    unfold parseRow encodeQuotedField
    rw [parseRowAux_quote_open, parseRowAux_doubleQ, List.nil_append,
      parseRowAux_quote_end, List.nil_append]
  have hmk : String.mk v.data = v := rfl
  unfold parseCSV
  rw [if_neg (by simp [String.ext_iff])]
  have hdat : (String.mk ('h' :: '\n' :: encodeQuotedField v.data)).data
      = 'h' :: '\n' :: encodeQuotedField v.data := rfl
  rw [hdat, hrowsplit]
  simp only [List.map_cons, List.map_nil, hdata, hclean, hmk]
  rw [show (parseRow ['h']).map jsToLower = ["h"] from by decide]
  have hrec : buildObj ["h"] [v] = [("h", v)] := rfl
  rw [hrec]
  have hnb : recordNonblank [("h", v)] = true := by
    simp [recordNonblank, htrim, hvne]
  simp [hnb]

/-- Witness for C2 (amended) at the claim's own example value: comma,
raw newline and an escaped quote inside one quoted field. -/
theorem claim_C2_roundtrip_amended_witness :
    parseCSV (String.mk ('h' :: '\n' :: encodeQuotedField ("He said \"hi\",\nok" : String).data))
      = [[("h", "He said \"hi\",\nok")]] :=
  claim_C2_roundtrip_amended "He said \"hi\",\nok" (by decide) (by decide)
    (by decide) (by decide) (by decide)

theorem parseRowAux_quote_close {c2 : Char} {rest2 cur : List Char}
    {acc : List String} (h2 : c2 ≠ '"') :
    parseRowAux ('"' :: c2 :: rest2) cur true acc
      = parseRowAux (c2 :: rest2) cur false acc := by
  rw [parseRowAux.eq_3]
  · simp
  · intro r2 _ heq
    simp at heq
    exact h2 heq.1

theorem parseRowAux_mem (n : Nat) :
    ∀ (cs cur : List Char) (inQ : Bool) (acc : List String) (v : String),
    cs.length ≤ n → v ∈ parseRowAux cs cur inQ acc →
    v ∈ acc ∨ ∃ raw : List Char, v = String.mk (cleanValue raw) := by
  induction n with
  | zero =>
    intro cs cur inQ acc v hlen hmem
    have hcs : cs = [] := List.length_eq_zero.mp (Nat.le_zero.mp hlen)
    subst hcs
    simp only [parseRowAux, List.mem_append, List.mem_singleton] at hmem
    rcases hmem with h | h
    · exact Or.inl h
    · exact Or.inr ⟨cur, h⟩
  | succ n ih =>
    intro cs cur inQ acc v hlen hmem
    match cs with
    | [] =>
      simp only [parseRowAux, List.mem_append, List.mem_singleton] at hmem
      rcases hmem with h | h
      · exact Or.inl h
      · exact Or.inr ⟨cur, h⟩
    | c :: rest =>
      by_cases hc : c = '"'
      · subst hc
        cases inQ with
        | false =>
          rw [parseRowAux_quote_open] at hmem
          exact ih rest cur true acc v (by simp at hlen; omega) hmem
        | true =>
          match rest with
          | [] =>
            rw [parseRowAux_quote_end] at hmem
            simp only [List.mem_append, List.mem_singleton] at hmem
            rcases hmem with h | h
            · exact Or.inl h
            · exact Or.inr ⟨cur, h⟩
          | c2 :: rest2 =>
            by_cases h2 : c2 = '"'
            · subst h2
              rw [parseRowAux_escaped] at hmem
              exact ih rest2 (cur ++ ['"']) true acc v (by simp at hlen ⊢; omega) hmem
            · rw [parseRowAux_quote_close h2] at hmem
              exact ih (c2 :: rest2) cur false acc v (by simp at hlen ⊢; omega) hmem
      · by_cases hcm : c = ',' ∧ inQ = false
        · obtain ⟨hc1, hc2⟩ := hcm
          subst hc1
          subst hc2
          rw [parseRowAux_comma] at hmem
          have h := ih rest [] false (acc ++ [String.mk (cleanValue cur)]) v
            (by simp at hlen; omega) hmem
          rcases h with h | h
          · simp only [List.mem_append, List.mem_singleton] at h
            rcases h with h | h
            · exact Or.inl h
            · exact Or.inr ⟨cur, h⟩
          · exact Or.inr h
        · rw [parseRowAux_other hc hcm] at hmem
          exact ih rest (cur ++ [c]) inQ acc v (by simp at hlen; omega) hmem

/-- The field-cleaning transform as the specification words it: the
decoded field text after trimming leading and trailing whitespace, with
one additional pair of surrounding double-quote characters removed when
the trimmed text both starts and ends with a double quote.  Stated
separately from `cleanValue` to compare the spec's wording against the
source. -/
def specCleanValue (cs : List Char) : List Char :=
  let t := jsTrim cs
  if t.head? = some '"' ∧ t.getLast? = some '"' then (t.drop 1).dropLast else t

/-- C9 counterexample: the claim's consequence that no Record value
retains surrounding whitespace is false.  For the quoted source field
containing quote, space, h, i, space, quote (doubled inside the quoted
field), the decoded text is trim-stable, starts and ends with a quote,
and stripping that pair re-exposes the inner spaces: the stored record
value is the 4-character text space-h-i-space, whose first character is
whitespace. -/
theorem claim_C9_counterexample :
    parseCSV "h\n\"\"\" hi \"\"\"" = [[("h", " hi ")]] ∧
    (" hi " : String).data.head? = some ' ' ∧
    isJsWS ' ' = true := by
  decide

/-- C9 (amended): every parsed field value is the decoded field text
after trimming, with one surrounding quote pair removed when the trimmed
text both starts and ends with a quote (the source's `cleanValue` equals
the spec-worded transform, and every value `parseRow` emits is in its
image); however, because the quote pair is stripped after trimming, a
value whose trimmed decoded text is itself quote-wrapped can retain
surrounding whitespace or a further quote pair. -/
theorem claim_C9_cleaning_amended :
    (∀ cs : List Char, cleanValue cs = specCleanValue cs) ∧
    (∀ (row : List Char) (v : String), v ∈ parseRow row →
      ∃ raw : List Char, v = String.mk (specCleanValue raw)) := by
  constructor
  · intro cs
    rfl
  · intro row v hv
    have h := parseRowAux_mem row.length row [] false [] v le_rfl hv
    rcases h with h | ⟨raw, hr⟩
    · simp at h
    · exact ⟨raw, hr⟩

/-- Witness for C9 (amended) on the row `a,b`: the emitted value `a` is
in the image of the spec-worded cleaning transform. -/
theorem claim_C9_cleaning_amended_witness :
    (cleanValue [' ', 'x'] = specCleanValue [' ', 'x']) ∧
    ∃ raw : List Char, ("a" : String) = String.mk (specCleanValue raw) :=
  ⟨claim_C9_cleaning_amended.1 [' ', 'x'],
   claim_C9_cleaning_amended.2 ("a,b" : String).data "a" (by decide)⟩

theorem recordGet_objInsert_self (obj : CsvRecord) (k v : String) :
    recordGet (objInsert obj k v) k = some v := by
  induction obj with
  | nil => simp [objInsert, recordGet, List.find?]
  | cons p rest ih =>
    obtain ⟨k2, v2⟩ := p
    by_cases hk : k2 = k
    · simp [objInsert, recordGet, hk, List.find?]
    · simp only [objInsert, if_neg hk]
      simpa [recordGet, List.find?, hk] using ih

theorem recordGet_objInsert_ne (obj : CsvRecord) (k v : String) {k2 : String}
    (h : k2 ≠ k) : recordGet (objInsert obj k v) k2 = recordGet obj k2 := by
  have h2 : ¬(k = k2) := fun hx => h hx.symm
  induction obj with
  | nil => simp [objInsert, recordGet, List.find?, h2]
  | cons p rest ih =>
    obtain ⟨k3, v3⟩ := p
    by_cases hk : k3 = k
    · subst hk
      simp [objInsert, recordGet, List.find?, h2]
    · simp only [objInsert, if_neg hk]
      by_cases hk2 : k3 = k2
      · simp [recordGet, List.find?, hk2]
      · simp only [recordGet, List.find?, hk2] at ih ⊢
        simpa [hk2] using ih

theorem recordGet_buildObjAux_not_mem (vals : List String) :
    ∀ (hs : List String) (i : Nat) (obj : CsvRecord) (k : String), k ∉ hs →
    recordGet (buildObjAux vals hs i obj) k = recordGet obj k := by
  intro hs
  induction hs with
  | nil => intro i obj k _; rfl
  | cons h0 hs2 ih =>
    intro i obj k hk
    simp only [buildObjAux]
    rw [ih (i + 1) _ k (fun hx => hk (by simp [hx])),
      recordGet_objInsert_ne _ _ _ (fun hx => hk (by simp [hx]))]

theorem isSome_recordGet_objInsert (obj : CsvRecord) (k v : String)
    {k2 : String} (h : (recordGet obj k2).isSome = true) :
    (recordGet (objInsert obj k v) k2).isSome = true := by
  by_cases hk : k2 = k
  · subst hk
    simp [recordGet_objInsert_self]
  · rw [recordGet_objInsert_ne _ _ _ hk]
    exact h

theorem isSome_recordGet_buildObjAux (vals : List String) :
    ∀ (hs : List String) (i : Nat) (obj : CsvRecord) (k : String),
    (recordGet obj k).isSome = true →
    (recordGet (buildObjAux vals hs i obj) k).isSome = true := by
  intro hs
  induction hs with
  | nil => intro i obj k h; exact h
  | cons h0 hs2 ih =>
    intro i obj k h
    exact ih (i + 1) _ k (isSome_recordGet_objInsert _ _ _ h)

theorem isSome_recordGet_buildObjAux_mem (vals : List String) :
    ∀ (hs : List String) (i : Nat) (obj : CsvRecord) (k : String), k ∈ hs →
    (recordGet (buildObjAux vals hs i obj) k).isSome = true := by
  intro hs
  induction hs with
  | nil => intro i obj k hk; simp at hk
  | cons h0 hs2 ih =>
    intro i obj k hk
    rcases List.mem_cons.mp hk with hk | hk
    · subst hk
      exact isSome_recordGet_buildObjAux vals hs2 (i + 1) _ k
        (by simp [recordGet_objInsert_self])
    · exact ih (i + 1) _ k hk

theorem recordGet_buildObjAux_get (vals : List String) :
    ∀ (hs : List String) (i : Nat) (obj : CsvRecord), hs.Nodup →
    ∀ (j : Nat) (hj : j < hs.length),
    recordGet (buildObjAux vals hs i obj) (hs.get ⟨j, hj⟩)
      = some (vals.getD (i + j) "") := by
  intro hs
  induction hs with
  | nil => intro i obj _ j hj; simp at hj
  | cons h0 hs2 ih =>
    intro i obj hnd j hj
    have hnd2 := List.nodup_cons.mp hnd
    match j with
    | 0 =>
      simp only [List.get, buildObjAux]
      rw [recordGet_buildObjAux_not_mem vals hs2 (i + 1) _ h0 hnd2.1,
        recordGet_objInsert_self]
      simp
    | j + 1 =>
      simp only [List.get, buildObjAux]
      rw [ih (i + 1) _ hnd2.2 j (by simpa using hj)]
      have harith : i + 1 + j = i + (j + 1) := by omega
      rw [harith]

theorem mem_joinWith {sep : List Char} {cells : List (List Char)} {c : Char}
    (h : c ∈ joinWith sep cells) : c ∈ sep ∨ ∃ cell ∈ cells, c ∈ cell := by
  induction cells with
  | nil => simp [joinWith] at h
  | cons x xs ih =>
    cases xs with
    | nil =>
      simp only [joinWith] at h
      exact Or.inr ⟨x, by simp, h⟩
    | cons y ys =>
      simp only [joinWith, List.append_assoc, List.mem_append] at h
      rcases h with h | h | h
      · exact Or.inr ⟨x, by simp, h⟩
      · exact Or.inl h
      · rcases ih h with h2 | ⟨cell, hc1, hc2⟩
        · exact Or.inl h2
        · exact Or.inr ⟨cell, by simp [hc1], hc2⟩

/-- C6 counterexample: the input below has one data row, `,x`, which is
not fully blank (it carries the value `x` in its second position), yet
`parseCSV` returns zero records instead of one: the single header `h`
makes the record keep only the first (empty) value, drop the extra `x`,
and the resulting all-blank record is filtered out. -/
theorem claim_C6_counterexample :
    parseCSV "h\n,x" = [] ∧
    (splitRows ("h\n,x" : String).data).length = 2 ∧
    jsTrim ((",x" : String).data) ≠ [] ∧
    parseRow ((",x" : String).data) = ["", "x"] := by
  decide

theorem parseRow_of_simple_cells (cells : List (List Char))
    (h : ∀ cell ∈ cells, ∀ c ∈ cell, c ≠ '"' ∧ c ≠ ',' ∧ c ≠ '\n' ∧ c ≠ '\r')
    (hne : cells ≠ []) :
    parseRow (joinWith [','] cells)
      = cells.map (fun cell => String.mk (cleanValue cell)) := by
  unfold parseRow
  rw [parseRow_joinComma cells
    (fun cell hc c hcc => ⟨(h cell hc c hcc).1, (h cell hc c hcc).2.1⟩) hne []]
  simp

theorem joinComma_line_safe (cells : List (List Char))
    (h : ∀ cell ∈ cells, ∀ c ∈ cell, c ≠ '"' ∧ c ≠ ',' ∧ c ≠ '\n' ∧ c ≠ '\r') :
    ∀ c ∈ joinWith [','] cells, c ≠ '"' ∧ c ≠ '\n' ∧ c ≠ '\r' := by
  intro c hc
  rcases mem_joinWith hc with hs | ⟨cell, hc1, hc2⟩
  · simp at hs
    subst hs
    exact ⟨by decide, by decide, by decide⟩
  · exact ⟨(h cell hc1 c hc2).1, (h cell hc1 c hc2).2.2.1, (h cell hc1 c hc2).2.2.2⟩

example : parseCSV "a,B\nx\ny,z,w"
    = [[("a", "x"), ("b", "")], [("a", "y"), ("b", "z")]] := by decide

/-! ### Well-formed delimited input: bare and properly quoted cells -/

/-- A well-formed CSV cell as a producer writes it: either a bare cell,
or a properly quoted cell whose arbitrary content has its quotes doubled
on rendering. -/
inductive CsvCell where
  | bare (cs : List Char)
  | quoted (cs : List Char)
deriving DecidableEq

/-- The raw content of a cell: the value the producer intends. -/
def cellRaw : CsvCell → List Char
  | .bare cs => cs
  | .quoted cs => cs

/-- The rendered text of a cell inside the document. -/
def cellText : CsvCell → List Char
  | .bare cs => cs
  | .quoted cs => '"' :: (doubleQ cs ++ ['"'])

/-- Well-formedness: a bare cell must not contain a quote, the field
separator or a line break; a quoted cell may contain anything. -/
def cellOK : CsvCell → Prop
  | .bare cs => ∀ c ∈ cs, c ≠ '"' ∧ c ≠ ',' ∧ c ≠ '\n' ∧ c ≠ '\r'
  | .quoted _ => True

instance (cell : CsvCell) : Decidable (cellOK cell) :=
  match cell with
  | .bare cs =>
    inferInstanceAs (Decidable (∀ c ∈ cs, c ≠ '"' ∧ c ≠ ',' ∧ c ≠ '\n' ∧ c ≠ '\r'))
  | .quoted _ => isTrue trivial

/-- The rendered text of one row of cells. -/
def rowText (cells : List CsvCell) : List Char :=
  joinWith [','] (cells.map cellText)

/-- The record keys a well-formed header row produces: each raw header
cell cleaned and lower-cased. -/
def recordKeys (headers : List CsvCell) : List String :=
  headers.map (fun cell => jsToLower (String.mk (cleanValue (cellRaw cell))))

/-- The values a well-formed data row produces: each raw cell cleaned. -/
def rowValues (row : List CsvCell) : List String :=
  row.map (fun cell => String.mk (cleanValue (cellRaw cell)))

theorem parseRowAux_quote_close_any {rest cur : List Char} {acc : List String}
    (h : rest.head? ≠ some '"') :
    parseRowAux ('"' :: rest) cur true acc = parseRowAux rest cur false acc := by
  cases rest with
  | nil => rfl
  | cons c2 rest2 =>
    have h2 : c2 ≠ '"' := by simpa using h
    exact parseRowAux_quote_close h2

theorem splitRowsAux_quote_close {c2 : Char} {rest2 cur : List Char}
    {acc : List (List Char)} (h2 : c2 ≠ '"') :
    splitRowsAux ('"' :: c2 :: rest2) cur true acc
      = splitRowsAux (c2 :: rest2) (cur ++ ['"']) false acc := by
  rw [splitRowsAux.eq_3]
  · simp
  · intro r2 _ heq
    simp at heq
    exact h2 heq.1

theorem splitRowsAux_quote_close_any {rest cur : List Char}
    {acc : List (List Char)} (h : rest.head? ≠ some '"') :
    splitRowsAux ('"' :: rest) cur true acc
      = splitRowsAux rest (cur ++ ['"']) false acc := by
  cases rest with
  | nil => rfl
  | cons c2 rest2 =>
    have h2 : c2 ≠ '"' := by simpa using h
    exact splitRowsAux_quote_close h2

theorem parseRowAux_cellStep (cell : CsvCell) (hok : cellOK cell)
    {rest cur : List Char} {acc : List String} (h : rest.head? ≠ some '"') :
    parseRowAux (cellText cell ++ rest) cur false acc
      = parseRowAux rest (cur ++ cellRaw cell) false acc := by
  cases cell with
  | bare cs =>
    exact parseRowAux_copy cs (fun c hc => ⟨(hok c hc).1, (hok c hc).2.1⟩) rest cur acc
  | quoted cs =>
    show parseRowAux (('"' :: (doubleQ cs ++ ['"'])) ++ rest) cur false acc = _
    rw [List.cons_append, parseRowAux_quote_open, List.append_assoc,
      List.singleton_append, parseRowAux_doubleQ, parseRowAux_quote_close_any h]
    rfl

theorem splitRowsAux_cellStep (cell : CsvCell) (hok : cellOK cell)
    {rest cur : List Char} {acc : List (List Char)} (h : rest.head? ≠ some '"') :
    splitRowsAux (cellText cell ++ rest) cur false acc
      = splitRowsAux rest (cur ++ cellText cell) false acc := by
  cases cell with
  | bare cs =>
    exact splitRowsAux_copy cs
      (fun c hc => ⟨(hok c hc).1, (hok c hc).2.2.1, (hok c hc).2.2.2⟩) rest cur acc
  | quoted cs =>
    show splitRowsAux (('"' :: (doubleQ cs ++ ['"'])) ++ rest) cur false acc = _
    rw [List.cons_append, splitRowsAux_quote_open, List.append_assoc,
      List.singleton_append, splitRowsAux_doubleQ, splitRowsAux_quote_close_any h]
    show _ = splitRowsAux rest (cur ++ ('"' :: (doubleQ cs ++ ['"']))) false acc
    simp [List.append_assoc]

theorem splitRowsAux_row (cells : List CsvCell)
    (hok : ∀ cell ∈ cells, cellOK cell) :
    ∀ (rest cur : List Char) (acc : List (List Char)), rest.head? ≠ some '"' →
    splitRowsAux (rowText cells ++ rest) cur false acc
      = splitRowsAux rest (cur ++ rowText cells) false acc := by
  induction cells with
  | nil => intro rest cur acc _; simp [rowText, joinWith]
  | cons c0 cs ih =>
    intro rest cur acc h
    cases cs with
    | nil =>
      have h0 : rowText [c0] = cellText c0 := by simp [rowText, joinWith]
      rw [h0]
      exact splitRowsAux_cellStep c0 (hok c0 (by simp)) h
    | cons c1 cs2 =>
      have h0 : rowText (c0 :: c1 :: cs2)
          = cellText c0 ++ (',' :: rowText (c1 :: cs2)) := by
        simp [rowText, joinWith]
      rw [h0, List.append_assoc, List.cons_append,
        splitRowsAux_cellStep c0 (hok c0 (by simp)) (by simp),
        splitRowsAux_other (by decide) (by decide),
        ih (fun cell hc => hok cell (by simp [hc])) rest _ acc h]
      simp [List.append_assoc]

theorem parseRowAux_cells (cells : List CsvCell)
    (hok : ∀ cell ∈ cells, cellOK cell) (hne : cells ≠ []) :
    ∀ acc : List String,
    parseRowAux (rowText cells) [] false acc = acc ++ rowValues cells := by
  induction cells with
  | nil => exact absurd rfl hne
  | cons c0 cs ih =>
    intro acc
    cases cs with
    | nil =>
      have h0 : rowText [c0] = cellText c0 ++ [] := by simp [rowText, joinWith]
      rw [h0, parseRowAux_cellStep c0 (hok c0 (by simp)) (by simp), List.nil_append]
      simp [parseRowAux, rowValues]
    | cons c1 cs2 =>
      have h0 : rowText (c0 :: c1 :: cs2)
          = cellText c0 ++ (',' :: rowText (c1 :: cs2)) := by
        simp [rowText, joinWith]
      rw [h0, parseRowAux_cellStep c0 (hok c0 (by simp)) (by simp), List.nil_append,
        parseRowAux_comma, ih (fun cell hc => hok cell (by simp [hc])) (by simp)]
      simp [rowValues]

theorem splitRowsAux_joinRows (lines : List (List Char))
    (h : ∀ l ∈ lines, ∀ (rest cur : List Char) (acc : List (List Char)),
      rest.head? ≠ some '"' →
      splitRowsAux (l ++ rest) cur false acc = splitRowsAux rest (cur ++ l) false acc) :
    ∀ acc : List (List Char),
    splitRowsAux (joinWith ['\n'] lines) [] false acc
      = acc ++ lines.filter (fun l => decide (jsTrim l ≠ [])) := by
  induction lines with
  | nil => intro acc; simp [joinWith, splitRowsAux, jsTrim]
  | cons l0 ls ih =>
    intro acc
    cases ls with
    | nil =>
      have h0 : joinWith ['\n'] [l0] = l0 ++ [] := by simp [joinWith]
      rw [h0, h l0 (by simp) [] [] acc (by simp), List.nil_append]
      by_cases hb : jsTrim l0 = []
      · simp [splitRowsAux, hb, List.filter]
      · simp [splitRowsAux, hb, List.filter]
    | cons l1 ls2 =>
      have h0 : joinWith ['\n'] (l0 :: l1 :: ls2)
          = l0 ++ ('\n' :: joinWith ['\n'] (l1 :: ls2)) := by
        simp [joinWith]
      rw [h0, h l0 (by simp) _ [] acc (by simp), List.nil_append,
        splitRowsAux_newline, ih (fun l hl => h l (by simp [hl]))]
      by_cases hb : jsTrim l0 = []
      · simp [hb, List.filter]
      · simp [hb, List.filter]

/-- C6 (amended): for all well-formed delimited input — every cell either
bare (then free of quote, separator and line-break characters) or
properly quoted with arbitrary content and doubled quotes, a non-blank
header line with at least one cell, N non-empty data rows each rendering
a non-blank line — parse returns one record per data row, i.e. exactly N
records, PROVIDED each row's resulting record (built from the first
header-count cleaned values only, later duplicate keys overwriting) is
not fully blank: a data row whose retained values are all blank is
dropped even when a value beyond the header count is non-blank (see the
counterexample).  Each record contains every lower-cased header key,
and — when the lower-cased header keys are pairwise distinct — the value
at the j-th key is the cleaned j-th row value, the empty string when the
row is shorter, with values beyond the header count dropped. -/
theorem claim_C6_wellformed_amended
    (headers : List CsvCell) (rows : List (List CsvCell))
    (hhc : ∀ cell ∈ headers, cellOK cell)
    (hrc : ∀ row ∈ rows, ∀ cell ∈ row, cellOK cell)
    (hne : headers ≠ [])
    (hrne : ∀ row ∈ rows, row ≠ [])
    (hheadline : jsTrim (rowText headers) ≠ [])
    (hrowline : ∀ row ∈ rows, jsTrim (rowText row) ≠ [])
    (hnb : ∀ row ∈ rows,
      recordNonblank (buildObj (recordKeys headers) (rowValues row)) = true) :
    parseCSV (String.mk (joinWith ['\n'] (rowText headers :: rows.map rowText)))
      = rows.map (fun row => buildObj (recordKeys headers) (rowValues row)) ∧
    (parseCSV (String.mk (joinWith ['\n']
        (rowText headers :: rows.map rowText)))).length = rows.length ∧
    (∀ row ∈ rows, ∀ k ∈ recordKeys headers,
      (recordGet (buildObj (recordKeys headers) (rowValues row)) k).isSome
        = true) ∧
    ((recordKeys headers).Nodup → ∀ row ∈ rows, ∀ (j : Nat)
      (hj : j < (recordKeys headers).length),
      recordGet (buildObj (recordKeys headers) (rowValues row))
          ((recordKeys headers).get ⟨j, hj⟩)
        = some ((rowValues row).getD j "")) := by
  have hlne : rowText headers ≠ [] := by
    intro hx
    exact hheadline (by rw [hx]; rfl)
  have hscan : ∀ l ∈ (rowText headers :: rows.map rowText),
      ∀ (rest cur : List Char) (acc : List (List Char)),
      rest.head? ≠ some '"' →
      splitRowsAux (l ++ rest) cur false acc
        = splitRowsAux rest (cur ++ l) false acc := by
    intro l hl
    rcases List.mem_cons.mp hl with hl | hl
    · subst hl
      exact splitRowsAux_row headers hhc
    · rcases List.mem_map.mp hl with ⟨row, hrow, hrl⟩
      subst hrl
      exact splitRowsAux_row row (hrc row hrow)
  have hfl : List.filter (fun l => decide (jsTrim l ≠ []))
      (rowText headers :: rows.map rowText)
      = rowText headers :: rows.map rowText := by
    rw [List.filter_eq_self]
    intro l hl
    rcases List.mem_cons.mp hl with hl | hl
    · subst hl
      simpa using hheadline
    · rcases List.mem_map.mp hl with ⟨row, hrow, hrl⟩
      subst hrl
      simpa using hrowline row hrow
  have hsplit : splitRows (joinWith ['\n'] (rowText headers :: rows.map rowText))
      = rowText headers :: rows.map rowText := by
    unfold splitRows
    rw [splitRowsAux_joinRows _ hscan [], List.nil_append, hfl]
  have hstrne : String.mk (joinWith ['\n']
      (rowText headers :: rows.map rowText)) ≠ "" := by
    intro hcon
    have hdat : joinWith ['\n'] (rowText headers :: rows.map rowText) = [] := by
      simpa [String.ext_iff] using hcon
    cases hm : rows.map rowText with
    | nil =>
      rw [hm] at hdat
      exact hlne (by simpa [joinWith] using hdat)
    | cons y ys =>
      rw [hm] at hdat
      simp [joinWith] at hdat
  have hK : (parseRow (rowText headers)).map jsToLower = recordKeys headers := by
    unfold parseRow
    rw [parseRowAux_cells headers hhc hne [], List.nil_append]
    simp only [rowValues, recordKeys, List.map_map]
    rfl
  have hfinal : parseCSV (String.mk (joinWith ['\n']
      (rowText headers :: rows.map rowText)))
      = rows.map (fun row => buildObj (recordKeys headers) (rowValues row)) := by
    cases rows with
    | nil =>
      unfold parseCSV
      rw [if_neg hstrne]
      have hd : (String.mk (joinWith ['\n']
          (rowText headers :: List.map rowText []))).data
          = joinWith ['\n'] (rowText headers :: List.map rowText []) := rfl
      rw [hd, hsplit]
      rfl
    | cons row0 rows2 =>
      have hparse : parseCSV (String.mk (joinWith ['\n']
          (rowText headers :: (row0 :: rows2).map rowText)))
          = (((row0 :: rows2).map rowText).map
              (fun r => buildObj ((parseRow (rowText headers)).map jsToLower)
                (parseRow r))).filter recordNonblank := by
        unfold parseCSV
        rw [if_neg hstrne]
        have hd : (String.mk (joinWith ['\n']
            (rowText headers :: (row0 :: rows2).map rowText))).data
            = joinWith ['\n'] (rowText headers :: (row0 :: rows2).map rowText) :=
          rfl
        rw [hd, hsplit]
        rfl
      have hmaps : ((row0 :: rows2).map rowText).map
          (fun r => buildObj (recordKeys headers) (parseRow r))
          = (row0 :: rows2).map
              (fun row => buildObj (recordKeys headers) (rowValues row)) := by
        rw [List.map_map]
        apply List.map_congr_left
        intro row hrow
        simp only [Function.comp_apply]
        have hpr : parseRow (rowText row) = rowValues row := by
          unfold parseRow
          rw [parseRowAux_cells row (hrc row hrow) (hrne row hrow) [],
            List.nil_append]
        rw [hpr]
      have hfilter2 : ((row0 :: rows2).map
          (fun row => buildObj (recordKeys headers) (rowValues row))).filter
            recordNonblank
          = (row0 :: rows2).map
              (fun row => buildObj (recordKeys headers) (rowValues row)) := by
        rw [List.filter_eq_self]
        intro rec hrec
        rcases List.mem_map.mp hrec with ⟨row, hrow, hre⟩
        rw [← hre]
        exact hnb row hrow
      rw [hparse, hK, hmaps, hfilter2]
  refine ⟨hfinal, by rw [hfinal]; simp, ?_, ?_⟩
  · intro row _ k hk
    exact isSome_recordGet_buildObjAux_mem (rowValues row) (recordKeys headers) 0 [] k hk
  · intro hnd row _ j hj
    simpa using recordGet_buildObjAux_get (rowValues row) (recordKeys headers) 0 [] hnd j hj

/-- Witness for C6 (amended): headers `a` (bare) and `"B"` (quoted); one
data row consisting of a single quoted cell containing a comma and a raw
newline (its second value defaults to the empty string), and one data
row `y,"z",w` whose third value is dropped. -/
theorem claim_C6_wellformed_amended_witness :
    parseCSV (String.mk (joinWith ['\n']
        (rowText [.bare ['a'], .quoted ['B']]
          :: [[CsvCell.quoted [',', '\n', 'x']],
              [.bare ['y'], .quoted ['z'], .bare ['w']]].map rowText)))
      = [[CsvCell.quoted [',', '\n', 'x']],
         [.bare ['y'], .quoted ['z'], .bare ['w']]].map
          (fun row => buildObj (recordKeys [.bare ['a'], .quoted ['B']])
            (rowValues row)) :=
  (claim_C6_wellformed_amended [.bare ['a'], .quoted ['B']]
    [[.quoted [',', '\n', 'x']], [.bare ['y'], .quoted ['z'], .bare ['w']]]
    (by decide) (by decide) (by decide) (by decide) (by decide) (by decide)
    (by decide)).1

example : parseCSV "a,\"B\"\n\",\nx\"\ny,\"z\",w"
    = [[("a", ",\nx"), ("b", "")], [("a", "y"), ("b", "z")]] := by decide
